import Mathlib

/-!
Shallow embedding of `contour.py`: a one-shot script that reads solution-set
tables, filters rows by the `F` column, bins the `(E, n)` pairs into a 2D
histogram (`np.histogram2d` with `normed=True`), smooths the grid with
`scipy.ndimage.gaussian_filter(sigma=1.5)`, normalizes the grid by its
maximum (`normalize_array`), draws contour layers and finally writes the two
output image files.

Numbers: the script computes with IEEE doubles.  Two readings are embedded.
`ratModel` is the exact-arithmetic reading over `ℚ` (adequate while no NaN or
infinity arises; note that for a finite positive IEEE maximum `m` the float
quotient `m/m` is exactly `1.0`, so the claims about the normalized maximum
are about exact values).  `flModel` works over the type `Fl`, which tracks
the IEEE special values NaN and the two infinities on top of exact rationals
(signed zeros are not distinguished); it is needed because the script's
`normed=True` histogram divides by a zero total count when the filtered table
is empty, producing NaN cells.
-/

/-- A float value: NaN, plus or minus infinity, or a finite value (modelled
exactly as a rational). -/
inductive Fl where
  | nan : Fl
  | inf : Fl
  | ninf : Fl
  | val : ℚ → Fl
deriving DecidableEq

/-- IEEE division on `Fl` (signed zeros are not distinguished). -/
def fdiv : Fl → Fl → Fl
  | Fl.nan, _ => Fl.nan
  | _, Fl.nan => Fl.nan
  | Fl.inf, Fl.inf => Fl.nan
  | Fl.inf, Fl.ninf => Fl.nan
  | Fl.ninf, Fl.inf => Fl.nan
  | Fl.ninf, Fl.ninf => Fl.nan
  | Fl.inf, Fl.val b => if b < 0 then Fl.ninf else Fl.inf
  | Fl.ninf, Fl.val b => if b < 0 then Fl.inf else Fl.ninf
  | Fl.val _, Fl.inf => Fl.val 0
  | Fl.val _, Fl.ninf => Fl.val 0
  | Fl.val a, Fl.val b =>
      if b = 0 then (if a = 0 then Fl.nan else if a < 0 then Fl.ninf else Fl.inf)
      else Fl.val (a / b)

/-- IEEE multiplication on `Fl`. -/
def fmul : Fl → Fl → Fl
  | Fl.nan, _ => Fl.nan
  | _, Fl.nan => Fl.nan
  | Fl.inf, Fl.inf => Fl.inf
  | Fl.inf, Fl.ninf => Fl.ninf
  | Fl.ninf, Fl.inf => Fl.ninf
  | Fl.ninf, Fl.ninf => Fl.inf
  | Fl.inf, Fl.val b => if b = 0 then Fl.nan else if b < 0 then Fl.ninf else Fl.inf
  | Fl.val a, Fl.inf => if a = 0 then Fl.nan else if a < 0 then Fl.ninf else Fl.inf
  | Fl.ninf, Fl.val b => if b = 0 then Fl.nan else if b < 0 then Fl.inf else Fl.ninf
  | Fl.val a, Fl.ninf => if a = 0 then Fl.nan else if a < 0 then Fl.inf else Fl.ninf
  | Fl.val a, Fl.val b => Fl.val (a * b)

/-- IEEE addition on `Fl`. -/
def fadd : Fl → Fl → Fl
  | Fl.nan, _ => Fl.nan
  | _, Fl.nan => Fl.nan
  | Fl.inf, Fl.ninf => Fl.nan
  | Fl.ninf, Fl.inf => Fl.nan
  | Fl.inf, _ => Fl.inf
  | _, Fl.inf => Fl.inf
  | Fl.ninf, _ => Fl.ninf
  | _, Fl.ninf => Fl.ninf
  | Fl.val a, Fl.val b => Fl.val (a + b)

/-- IEEE strict comparison on `Fl`: every comparison with NaN is false. -/
def flt : Fl → Fl → Bool
  | Fl.nan, _ => false
  | _, Fl.nan => false
  | Fl.inf, _ => false
  | Fl.ninf, Fl.ninf => false
  | Fl.ninf, _ => true
  | Fl.val _, Fl.inf => true
  | Fl.val _, Fl.ninf => false
  | Fl.val a, Fl.val b => decide (a < b)

/-- The Python test `x == 0` on a float: false for NaN and the infinities. -/
def feqZero : Fl → Bool
  | Fl.val a => decide (a = 0)
  | _ => false

/-- The arithmetic a stage of the script needs: the Python comparison
`a < b` and `a > b` are both expressed through `lt`, `div` is true division,
and `isZero` is the Python test `x == 0`. -/
structure FloatModel (α : Type) where
  lt : α → α → Bool
  div : α → α → α
  isZero : α → Bool

/-- The exact-arithmetic reading of the script's float arithmetic. -/
def ratModel : FloatModel ℚ :=
  ⟨fun a b => decide (a < b), fun a b => a / b, fun a => decide (a = 0)⟩

/-- The NaN-tracking reading of the script's float arithmetic. -/
def flModel : FloatModel Fl := ⟨flt, fdiv, feqZero⟩

/-- A 2D array, as the script's numpy arrays: a list of rows. -/
abbrev Grid (α : Type) := List (List α)

/-- Python's builtin `max` on a list: a `ValueError` on the empty list
(modelled as `none`), otherwise the left fold that replaces the accumulator
whenever the next element compares strictly greater. -/
def pyMax {α : Type} (ops : FloatModel α) : List α → Option α
  | [] => none
  | x :: xs => some (xs.foldl (fun m y => if ops.lt m y then y else m) x)

/-- Python's builtin `min` on a list, dually to `pyMax`. -/
def pyMin {α : Type} (ops : FloatModel α) : List α → Option α
  | [] => none
  | x :: xs => some (xs.foldl (fun m y => if ops.lt y m then y else m) x)

/-- A list comprehension whose body may raise: the first raise propagates. -/
def optionMap {α β : Type} (f : α → Option β) : List α → Option (List β)
  | [] => some []
  | a :: l =>
    match f a with
    | none => none
    | some b =>
      match optionMap f l with
      | none => none
      | some bs => some (b :: bs)

/-- `determine_max_and_min` from contour.py lines 21 to 27:
`max([max(row) for row in array]), min([min(row) for row in array])`.
`none` models the `ValueError` raised by `max` or `min` on an empty
sequence (empty grid or an empty row). -/
def determine_max_and_min {α : Type} (ops : FloatModel α) (g : Grid α) :
    Option (α × α) :=
  match optionMap (pyMax ops) g with
  | none => none
  | some maxes =>
    match pyMax ops maxes with
    | none => none
    | some maximum_value =>
      match optionMap (pyMin ops) g with
      | none => none
      | some mins =>
        match pyMin ops mins with
        | none => none
        | some minimum_value => some (maximum_value, minimum_value)

/-- One step of the normalization loop body
`array[i][j] = array[i][j]/maximum_value`: reads cell `(i, j)` and writes the
quotient back; `none` models the `IndexError` when the read is out of range. -/
def updateCell {α : Type} (ops : FloatModel α) (M : α) (g : Grid α)
    (i j : ℕ) : Option (Grid α) :=
  match g[i]? with
  | none => none
  | some row =>
    match row[j]? with
    | none => none
    | some v => some (g.set i (row.set j (ops.div v M)))

/-- The two nested loops of `normalize_array` (contour.py lines 38 to 40):
both `i` and `j` range over `range(len(array))`, the number of rows. -/
def normalizeLoops {α : Type} (ops : FloatModel α) (M : α) (g : Grid α) :
    Option (Grid α) :=
  (List.range g.length).foldlM
    (fun h i => (List.range h.length).foldlM (fun h2 j => updateCell ops M h2 i j) h) g

/-- `normalize_array` from contour.py lines 30 to 42.  When the maximum is
`0` the script prints "The overlap is empty! Exiting." and exits (the call
`sys.exit()` in fact raises `NameError` because `sys` is never imported, but
either way the run terminates abnormally before any division); this abnormal
termination is modelled as `Except.error` carrying the printed message. -/
def normalize_array {α : Type} (ops : FloatModel α) (g : Grid α) :
    Except String (Grid α) :=
  match determine_max_and_min ops g with
  | none => Except.error "ValueError: max() arg is an empty sequence"
  | some (maximum_value, _minimum_value) =>
    if ops.isZero maximum_value then
      Except.error "The overlap is empty! Exiting."
    else
      match normalizeLoops ops maximum_value g with
      | some g2 => Except.ok g2
      | none => Except.error "IndexError: list index out of range"

/-- A row of a solution-set table: columns `E`, `n`, `F`. -/
structure Row where
  E : ℚ
  n : ℚ
  F : ℚ
deriving DecidableEq

/-- The filter threshold `F_upper = 1E-6` from contour.py line 94. -/
def F_upper : ℚ := 1 / 1000000

/-- The row filter `df = df[df["F"] < F_upper]` from contour.py
lines 105 to 106: keeps, in order, the rows whose `F` is strictly below the
threshold. -/
def filterByF (t : ℚ) (df : List Row) : List Row :=
  df.filter (fun r => decide (r.F < t))

/-- The contour level list `lvl = [.1]` from contour.py line 95. -/
def lvl : List ℚ := [1 / 10]

/-- The ordered palette used by the three `ax.contour` calls and the three
proxy legend rectangles (contour.py lines 108, 114, 120 and 126 to 129). -/
def contourColors : List String := ["black", "red", "blue"]

/-- Modelled from the spec: the color-cycling assignment is described by the
spec ("Colors are assigned by cycling through a fixed ordered palette,
wrapping around ... if there are more datasets than distinct colors"; design
note 9 describes it as "a generator that cycles indefinitely through a fixed
sequence", i.e. an index taken modulo the palette length) but the script
variant implementing it is not under src/, where the three colors are
written out positionally.  Dataset `i` receives palette entry `i mod K`. -/
def colorCycle (palette : List String) (i : ℕ) : String :=
  palette.getD (i % palette.length) ""

/-- The bin edges `np.linspace(a, b, n + 1)` that `np.histogram2d` builds for
an explicit range `[a, b]` with `n` equal-width bins. -/
def binEdges (a b : ℚ) (n : ℕ) : List ℚ :=
  (List.range (n + 1)).map (fun k : ℕ => a + (k : ℚ) * ((b - a) / (n : ℚ)))

/-- `np.searchsorted(edges, x, side='right')` for an ascending edge list:
the number of edges that are at most `x`. -/
def searchsortedRight (edges : List ℚ) (x : ℚ) : ℕ :=
  edges.countP (fun e => decide (e ≤ x))

/-- The bin index numpy assigns to a coordinate: `searchsorted` on the right,
then samples sitting exactly on the last edge are pulled back into the last
bin.  In-range samples get an index between `1` and `n` (bin `idx - 1`);
index `0` and `n + 1` are the outlier bins that numpy strips. -/
def binIdx (edges : List ℚ) (x : ℚ) : ℕ :=
  let c := searchsortedRight edges x
  if edges.getLast? = some x then c - 1 else c

/-- The in-range bin counts of `np.histogram2d`: cell `(i, j)` counts the
samples whose `x` falls in bin `i` and whose `y` falls in bin `j`. -/
def histcounts (pts : List (ℚ × ℚ)) (bins : ℕ) (xe ye : List ℚ) :
    List (List ℕ) :=
  (List.range bins).map (fun i => (List.range bins).map (fun j =>
    pts.countP (fun p => decide (binIdx xe p.1 = i + 1 ∧ binIdx ye p.2 = j + 1))))

/-- `hist.sum()` over the in-range counts, the total numpy divides by under
`normed=True`. -/
def totalCount (counts : List (List ℕ)) : ℕ :=
  (counts.map (fun row => row.sum)).sum

/-- The `normed=True` density scaling of `np.histogramdd`: each cell is
divided by its own bin width on each axis and then by the total in-range
count.  When the total is zero this is the float division `0/0`, i.e. NaN. -/
def densityGrid (counts : List (List ℕ)) (bins : ℕ) (xe ye : List ℚ) :
    Grid Fl :=
  (List.range bins).map (fun i => (List.range bins).map (fun j =>
    fdiv
      (fdiv
        (fdiv (Fl.val (((counts.getD i []).getD j 0 : ℕ) : ℚ))
          (Fl.val (xe.getD (i + 1) 0 - xe.getD i 0)))
        (Fl.val (ye.getD (j + 1) 0 - ye.getD j 0)))
      (Fl.val ((totalCount counts : ℕ) : ℚ))))

/-- The result triple of `np.histogram2d`. -/
structure Hist2d where
  heatmap : Grid Fl
  xedges : List ℚ
  yedges : List ℚ
deriving DecidableEq

/-- `np.histogram2d(x, y, bins=bins, range=[[xmin, xmax], [ymin, ymax]],
normed=True)` as called at contour.py line 73. -/
def histogram2d (pts : List (ℚ × ℚ)) (bins : ℕ) (xmin xmax ymin ymax : ℚ) :
    Hist2d :=
  ⟨densityGrid (histcounts pts bins (binEdges xmin xmax bins) (binEdges ymin ymax bins))
      bins (binEdges xmin xmax bins) (binEdges ymin ymax bins),
   binEdges xmin xmax bins, binEdges ymin ymax bins⟩

/-- `extent = [xedges[0], xedges[-1], yedges[0], yedges[-1]]` from
contour.py line 74. -/
def extentOf (h : Hist2d) : List ℚ :=
  [h.xedges.getD 0 0, h.xedges.getLastD 0, h.yedges.getD 0 0, h.yedges.getLastD 0]

/-- The kernel radius scipy uses: `int(truncate * sigma + 0.5)` with the
default `truncate = 4.0`. -/
def kernelRadius (s : ℚ) : ℕ := (Int.floor (4 * s + 1 / 2)).toNat

/-- The reflect boundary mode of `scipy.ndimage` (default, symmetric
half-sample reflection, period `2n`). -/
def reflectIndex (n : ℕ) (z : ℤ) : ℕ :=
  let p := (z % (2 * (n : ℤ))).toNat
  if p < n then p else 2 * n - 1 - p

/-- One output sample of scipy's `correlate1d`: the kernel-weighted sum of
the input around position `i`, boundary handled by reflection. -/
def dotAt (w : List Fl) (xs : List Fl) (i : ℕ) : Fl :=
  ((List.range w.length).map (fun k =>
    fmul (w.getD k (Fl.val 0))
      (xs.getD (reflectIndex xs.length ((i : ℤ) + (k : ℤ) - ((w.length / 2 : ℕ) : ℤ)))
        (Fl.val 0)))).foldl fadd (Fl.val 0)

/-- scipy's `correlate1d` along a 1D sequence, reflect boundary. -/
def correlate1d (w : List Fl) (xs : List Fl) : List Fl :=
  (List.range xs.length).map (fun i => dotAt w xs i)

/-- One output sample of `correlate1d` applied along axis 0 of a grid. -/
def colDotAt (w : List Fl) (g : Grid Fl) (i j : ℕ) : Fl :=
  ((List.range w.length).map (fun k =>
    fmul (w.getD k (Fl.val 0))
      ((g.getD (reflectIndex g.length ((i : ℤ) + (k : ℤ) - ((w.length / 2 : ℕ) : ℤ))) []).getD j
        (Fl.val 0)))).foldl fadd (Fl.val 0)

/-- `correlate1d` along axis 0 (down the columns) of a grid. -/
def correlateCols (w : List Fl) (g : Grid Fl) : Grid Fl :=
  (List.range g.length).map (fun i =>
    (List.range (g.getD i []).length).map (fun j => colDotAt w g i j))

/-- The separable 2D filter: axis 0, then axis 1. -/
def smooth2d (w : List Fl) (g : Grid Fl) : Grid Fl :=
  (correlateCols w g).map (fun row => correlate1d w row)

/-- `scipy.ndimage.gaussian_filter(heatmap, sigma=s)` as called at
contour.py line 76.  scipy drops every axis whose sigma is at most `1e-15`
and, when no axis remains, copies the input through unchanged.  The Gaussian
kernel weights `exp(-k^2/(2 s^2))` normalized to unit sum are transcendental
reals, so the kernel is taken as a parameter `w` (scipy's kernel has length
`2 * kernelRadius s + 1`); every theorem below holds for every kernel. -/
def gaussian_filter (w : List Fl) (s : ℚ) (g : Grid Fl) : Grid Fl :=
  if 1 / 10 ^ 15 < s then smooth2d w g else g

/-- numpy's `.T` on a rectangular 2D array, as used at contour.py line 80. -/
def transposeGrid (g : Grid Fl) : Grid Fl :=
  (List.range (g.getD 0 []).length).map (fun j =>
    (List.range g.length).map (fun i => (g.getD i []).getD j (Fl.val 0)))

/-- The result dictionary of `get_histogram`. -/
structure HistResult where
  heatmap : Grid Fl
  extent : List ℚ
  xedges : List ℚ
  yedges : List ℚ
deriving DecidableEq

/-- `get_histogram(df, bins, xmin, xmax, ymin, ymax)` from contour.py
lines 44 to 85: histogram of the `(E, n)` columns, Gaussian smoothing with
`sigma=1.5`, normalization by the maximum, and the transposed heatmap in the
result.  The smoothing kernel is the parameter `w` (see `gaussian_filter`).
An abnormal termination inside `normalize_array` propagates. -/
def get_histogram (w : List Fl) (df : List Row) (bins : ℕ)
    (xmin xmax ymin ymax : ℚ) : Except String HistResult :=
  let h := histogram2d (df.map (fun r => (r.E, r.n))) bins xmin xmax ymin ymax
  let smoothed := gaussian_filter w (3 / 2) h.heatmap
  match normalize_array flModel smoothed with
  | Except.error e => Except.error e
  | Except.ok hm =>
      Except.ok ⟨transposeGrid hm, extentOf h, h.xedges, h.yedges⟩

/-- The top-level flow of contour.py lines 104 to 141: filter each of the
three datasets by `F_upper`, run `get_histogram` on each with `bins=200`,
`xmin=10`, `xmax=10000`, `ymin=1e11`, `ymax=2.61e12`, and only afterwards
write the two output files.  The returned string list holds the files the
run writes; an abnormal termination anywhere earlier yields `Except.error`
and no file is written. -/
def runScript (w : List Fl) (dfK9 dfK10 dfNa : List Row) :
    Except String (List HistResult × List String) := do
  let r1 ← get_histogram w (filterByF F_upper dfK9) 200 10 10000 (10 ^ 11) (261 * 10 ^ 10)
  let r2 ← get_histogram w (filterByF F_upper dfK10) 200 10 10000 (10 ^ 11) (261 * 10 ^ 10)
  let r3 ← get_histogram w (filterByF F_upper dfNa) 200 10 10000 (10 ^ 11) (261 * 10 ^ 10)
  pure ([r1, r2, r3], ["contour_overlap.png", "contour_overlap.eps"])

/-- A dataset row that survives no filtering: its `F` equals the threshold,
so `F < F_upper` is false and the filtered table is empty. -/
def badRow : Row := ⟨100, 10 ^ 11, 1 / 1000000⟩

/-- The transformation the normalization loops perform on one row: the
leading `n` entries are divided by `M`, the rest are untouched. -/
def transformRow {α : Type} (ops : FloatModel α) (M : α) (n : ℕ)
    (row : List α) : List α :=
  (row.take n).map (fun v => ops.div v M) ++ row.drop n

/-! ### Helper lemmas -/

theorem foldl_const_of_step {α : Type} (f : α → α → α) (c : α) (hf : f c c = c) :
    ∀ xs : List α, (∀ x ∈ xs, x = c) → xs.foldl f c = c := by
  intro xs
  induction xs with
  | nil => intro _; rfl
  | cons y ys ih =>
    intro h
    have hy : y = c := h y (List.mem_cons_self y ys)
    have hys : ∀ x ∈ ys, x = c := fun x hx => h x (List.mem_cons_of_mem y hx)
    simp only [List.foldl_cons, hy, hf]
    exact ih hys

theorem optionMap_of_forall {α β : Type} (f : α → Option β) (k : α → β) :
    ∀ g : List α, (∀ a ∈ g, f a = some (k a)) → optionMap f g = some (g.map k) := by
  intro g
  induction g with
  | nil => intro _; rfl
  | cons a l ih =>
    intro h
    have ha : f a = some (k a) := h a (List.mem_cons_self a l)
    have hl : optionMap f l = some (l.map k) := ih (fun x hx => h x (List.mem_cons_of_mem a hx))
    simp [optionMap, ha, hl]

theorem pyMax_rat_all_eq (c : ℚ) (l : List ℚ) (hne : l ≠ [])
    (h : ∀ x ∈ l, x = c) : pyMax ratModel l = some c := by
  match l with
  | [] => exact absurd rfl hne
  | x :: xs =>
    have hx : x = c := h x (List.mem_cons_self x xs)
    have hxs : ∀ y ∈ xs, y = c := fun y hy => h y (List.mem_cons_of_mem x hy)
    have hstep : (fun m y : ℚ => if ratModel.lt m y then y else m) c c = c := by
      simp [ratModel]
    simp only [pyMax, hx]
    exact congrArg some
      (foldl_const_of_step (fun m y : ℚ => if ratModel.lt m y then y else m) c hstep xs hxs)

theorem pyMin_rat_all_eq (c : ℚ) (l : List ℚ) (hne : l ≠ [])
    (h : ∀ x ∈ l, x = c) : pyMin ratModel l = some c := by
  match l with
  | [] => exact absurd rfl hne
  | x :: xs =>
    have hx : x = c := h x (List.mem_cons_self x xs)
    have hxs : ∀ y ∈ xs, y = c := fun y hy => h y (List.mem_cons_of_mem x hy)
    have hstep : (fun m y : ℚ => if ratModel.lt y m then y else m) c c = c := by
      simp [ratModel]
    simp only [pyMin, hx]
    exact congrArg some
      (foldl_const_of_step (fun m y : ℚ => if ratModel.lt y m then y else m) c hstep xs hxs)

/-! ### Claim theorems -/

/-- C2: for every (nonempty, no empty rows) grid all of whose cells are zero,
`normalize_array` aborts with the empty-result message before any division is
performed: the result is the error carrying the printed message, and no
output grid (hence no NaN or Inf cell) is produced. -/
theorem spec_C2 (g : Grid ℚ) (hne : g ≠ []) (hrows : ∀ row ∈ g, row ≠ [])
    (hzero : ∀ row ∈ g, ∀ x ∈ row, x = (0 : ℚ)) :
    normalize_array ratModel g = Except.error "The overlap is empty! Exiting." := by
  have hmaxes : optionMap (pyMax ratModel) g = some (g.map (fun _ => (0 : ℚ))) :=
    optionMap_of_forall _ _ g (fun row hrow =>
      pyMax_rat_all_eq 0 row (hrows row hrow) (hzero row hrow))
  have hmins : optionMap (pyMin ratModel) g = some (g.map (fun _ => (0 : ℚ))) :=
    optionMap_of_forall _ _ g (fun row hrow =>
      pyMin_rat_all_eq 0 row (hrows row hrow) (hzero row hrow))
  have hmapne : g.map (fun _ => (0 : ℚ)) ≠ [] := by
    simpa using hne
  have hmaxmax : pyMax ratModel (g.map (fun _ => (0 : ℚ))) = some 0 :=
    pyMax_rat_all_eq 0 _ hmapne (by simp)
  have hminmin : pyMin ratModel (g.map (fun _ => (0 : ℚ))) = some 0 :=
    pyMin_rat_all_eq 0 _ hmapne (by simp)
  have hdet : determine_max_and_min ratModel g = some (0, 0) := by
    simp only [determine_max_and_min, hmaxes, hmaxmax, hmins, hminmin]
  unfold normalize_array
  rw [hdet]
  simp [ratModel]

/-- Witness for C2 at the concrete all-zero 2 by 2 grid. -/
theorem spec_C2_witness :
    normalize_array ratModel [[0, 0], [0, 0]] =
      Except.error "The overlap is empty! Exiting." :=
  spec_C2 [[0, 0], [0, 0]] (by decide) (by decide) (by decide)

/-- C4: the row filter keeps exactly the rows with `F` strictly below the
threshold, keeps them whole and in their original order: the output is a
sublist of the input, every output row satisfies `F < t`, every input row
satisfying `F < t` is kept, and the output is the largest such sublist. -/
theorem spec_C4 (t : ℚ) (df : List Row) :
    (filterByF t df).Sublist df
    ∧ (∀ r ∈ filterByF t df, r.F < t)
    ∧ (∀ r ∈ df, r.F < t → r ∈ filterByF t df)
    ∧ ∀ sub : List Row, sub.Sublist df → (∀ r ∈ sub, r.F < t) →
        sub.Sublist (filterByF t df) := by
  refine ⟨List.filter_sublist _, ?_, ?_, ?_⟩
  · intro r hr
    have hr2 : r ∈ df.filter (fun r => decide (r.F < t)) := hr
    have := (List.mem_filter.mp hr2).2
    simpa using this
  · intro r hr hF
    show r ∈ df.filter (fun r => decide (r.F < t))
    exact List.mem_filter.mpr ⟨hr, by simpa using hF⟩
  · intro sub hsub hall
    have h1 : sub.filter (fun r => decide (r.F < t)) = sub :=
      List.filter_eq_self.mpr (fun a ha => by simpa using hall a ha)
    have h2 := List.Sublist.filter (fun r => decide (r.F < t)) hsub
    rw [h1] at h2
    exact h2

/-- Witness for C4 at a concrete table and threshold. -/
theorem spec_C4_witness : (filterByF 1 [⟨1, 1, 0⟩, ⟨2, 2, 5⟩]).Sublist [⟨1, 1, 0⟩, ⟨2, 2, 5⟩] :=
  (spec_C4 1 [⟨1, 1, 0⟩, ⟨2, 2, 5⟩]).1

/-- C8: filtering an already-filtered table with the same threshold yields
an identical table. -/
theorem spec_C8 (t : ℚ) (df : List Row) :
    filterByF t (filterByF t df) = filterByF t df := by
  show (filterByF t df).filter (fun r => decide (r.F < t)) = filterByF t df
  apply List.filter_eq_self.mpr
  intro a ha
  have ha2 : a ∈ df.filter (fun r => decide (r.F < t)) := ha
  exact (List.mem_filter.mp ha2).2

/-- Witness for C8 at a concrete table and threshold. -/
theorem spec_C8_witness :
    filterByF 1 (filterByF 1 [⟨1, 1, 0⟩, ⟨2, 2, 5⟩]) = filterByF 1 [⟨1, 1, 0⟩, ⟨2, 2, 5⟩] :=
  spec_C8 1 [⟨1, 1, 0⟩, ⟨2, 2, 5⟩]

/-- C6: smoothing with width 0 passes every grid through unchanged (scipy
drops axes whose sigma is at most `1e-15`, and with no axis left copies the
input), identical in shape and in every cell, for every kernel. -/
theorem spec_C6 (w : List Fl) (g : Grid Fl) : gaussian_filter w 0 g = g := by
  rw [gaussian_filter, if_neg (by norm_num)]

/-- Witness for C6 at a concrete grid. -/
theorem spec_C6_witness : gaussian_filter [Fl.val 1] 0 [[Fl.val 2]] = [[Fl.val 2]] :=
  spec_C6 [Fl.val 1] [[Fl.val 2]]

/-- C7: colors cycle through the fixed ordered palette, wrapping around:
for a nonempty palette of size K the dataset with index K (the (K+1)-th)
receives the same color as the dataset with index 0 (the 1st), and every
index wraps with period K; on the source's palette the first three datasets
receive black, red, blue and a fourth would receive black again. -/
theorem spec_C7 (palette : List String) (h : 0 < palette.length) :
    colorCycle palette palette.length = colorCycle palette 0
    ∧ (∀ i : ℕ, colorCycle palette (i + palette.length) = colorCycle palette i)
    ∧ colorCycle contourColors 0 = "black"
    ∧ colorCycle contourColors 1 = "red"
    ∧ colorCycle contourColors 2 = "blue"
    ∧ colorCycle contourColors 3 = "black" := by
  refine ⟨?_, ?_, by decide, by decide, by decide, by decide⟩
  · simp [colorCycle, Nat.mod_self, Nat.zero_mod]
  · intro i
    simp [colorCycle, Nat.add_mod_right]

/-- Witness for C7 at the source's three-color palette. -/
theorem spec_C7_witness :
    colorCycle contourColors contourColors.length = colorCycle contourColors 0 :=
  (spec_C7 contourColors (by decide)).1

theorem set_getElem?_self {α : Type} :
    ∀ (l : List α) (i : ℕ) (x : α), l[i]? = some x → l.set i x = l := by
  intro l
  induction l with
  | nil => intro i x h; simp at h
  | cons a t ih =>
    intro i x h
    cases i with
    | zero =>
      simp only [List.getElem?_cons_zero, Option.some.injEq] at h
      simp [h]
    | succ n =>
      simp only [List.getElem?_cons_succ] at h
      simp [ih n x h]

theorem set_append_len {α : Type} :
    ∀ (A B : List α) (v : α), (A ++ B).set A.length v = A ++ B.set 0 v := by
  intro A
  induction A with
  | nil => intro B v; simp
  | cons a t ih => intro B v; simp [ih]

theorem foldlM_opt_append {α β : Type} (f : β → α → Option β) :
    ∀ (l1 l2 : List α) (b : β),
      (l1 ++ l2).foldlM f b = (l1.foldlM f b).bind (fun b2 => l2.foldlM f b2) := by
  intro l1
  induction l1 with
  | nil => intro l2 b; simp
  | cons a t ih =>
    intro l2 b
    simp only [List.cons_append, List.foldlM_cons]
    cases h : f b a with
    | none => simp [h]
    | some b1 => simp [h, ih]

theorem innerLoop_eq {α : Type} (ops : FloatModel α) (M : α) :
    ∀ (n : ℕ) (g : Grid α) (i : ℕ) (row : List α),
      g[i]? = some row → n ≤ row.length →
      (List.range n).foldlM (fun h2 j => updateCell ops M h2 i j) g
        = some (g.set i (transformRow ops M n row)) := by
  intro n
  induction n with
  | zero =>
    intro g i row hrow _
    simp [transformRow, set_getElem?_self g i row hrow]
  | succ n ih =>
    intro g i row hrow hlen
    have hlen' : n ≤ row.length := Nat.le_of_succ_le hlen
    have hn : n < row.length := hlen
    rw [List.range_succ, foldlM_opt_append, ih g i row hrow hlen']
    have hi : i < g.length := by
      by_contra hcon
      push_neg at hcon
      rw [List.getElem?_eq_none_iff.mpr hcon] at hrow
      exact Option.noConfusion hrow
    have hAlen : ((row.take n).map (fun v => ops.div v M)).length = n := by
      simp only [List.length_map, List.length_take]
      omega
    have hgn : (g.set i (transformRow ops M n row))[i]? = some (transformRow ops M n row) :=
      List.getElem?_set_self (by simpa using hi)
    have hrn : (transformRow ops M n row)[n]? = some row[n] := by
      rw [transformRow, List.getElem?_append_right hAlen.le]
      rw [hAlen, Nat.sub_self, List.getElem?_drop]
      rw [Nat.add_zero, List.getElem?_eq_getElem hn]
    have hupd : updateCell ops M (g.set i (transformRow ops M n row)) i n
        = some (g.set i ((transformRow ops M n row).set n (ops.div row[n] M))) := by
      simp only [updateCell, hgn, hrn, List.set_set]
    have htr : (transformRow ops M n row).set n (ops.div row[n] M)
        = transformRow ops M (n + 1) row := by
      have hsetlen := set_append_len ((row.take n).map (fun v => ops.div v M)) (row.drop n)
        (ops.div row[n] M)
      rw [hAlen] at hsetlen
      rw [transformRow, hsetlen, List.drop_eq_getElem_cons hn, List.set_cons_zero]
      rw [transformRow]
      have hmapn : (row.map (fun v => ops.div v M))[n]? = some (ops.div row[n] M) := by
        rw [List.getElem?_map, List.getElem?_eq_getElem hn]
        rfl
      simp only [List.map_take]
      rw [List.take_succ, hmapn]
      simp
    simp only [Option.some_bind, List.foldlM_cons, List.foldlM_nil, hupd, htr]
    simp

theorem normalizeLoops_eq {α : Type} (ops : FloatModel α) (M : α) (g : Grid α)
    (hwide : ∀ row ∈ g, g.length ≤ row.length) :
    normalizeLoops ops M g = some (g.map (transformRow ops M g.length)) := by
  have aux : ∀ m, m ≤ g.length →
      (List.range m).foldlM
        (fun h i => (List.range h.length).foldlM (fun h2 j => updateCell ops M h2 i j) h) g
      = some ((g.take m).map (transformRow ops M g.length) ++ g.drop m) := by
    intro m
    induction m with
    | zero => intro _; simp
    | succ m ih =>
      intro hm
      have hm' : m ≤ g.length := Nat.le_of_succ_le hm
      have hmlt : m < g.length := hm
      rw [List.range_succ, foldlM_opt_append, ih hm']
      have hAlen : ((g.take m).map (transformRow ops M g.length)).length = m := by
        simp only [List.length_map, List.length_take]
        omega
      have hlen : ((g.take m).map (transformRow ops M g.length) ++ g.drop m).length
          = g.length := by
        simp only [List.length_append, List.length_map, List.length_take, List.length_drop]
        omega
      have hhm : ((g.take m).map (transformRow ops M g.length) ++ g.drop m)[m]?
          = some g[m] := by
        rw [List.getElem?_append_right hAlen.le]
        rw [hAlen, Nat.sub_self, List.getElem?_drop, Nat.add_zero,
          List.getElem?_eq_getElem hmlt]
      have hrowlen : g.length ≤ g[m].length := hwide _ (List.getElem_mem hmlt)
      simp only [Option.some_bind, List.foldlM_cons, List.foldlM_nil]
      rw [hlen, innerLoop_eq ops M g.length _ m g[m] hhm hrowlen]
      have hset : ((g.take m).map (transformRow ops M g.length) ++ g.drop m).set m
            (transformRow ops M g.length g[m])
          = (g.take (m + 1)).map (transformRow ops M g.length) ++ g.drop (m + 1) := by
        have hsetlen := set_append_len ((g.take m).map (transformRow ops M g.length))
          (g.drop m) (transformRow ops M g.length g[m])
        rw [hAlen] at hsetlen
        rw [hsetlen, List.drop_eq_getElem_cons hmlt, List.set_cons_zero]
        have hmapm : (g.map (transformRow ops M g.length))[m]?
            = some (transformRow ops M g.length g[m]) := by
          rw [List.getElem?_map, List.getElem?_eq_getElem hmlt]
          rfl
        simp only [List.map_take]
        rw [List.take_succ, hmapm]
        simp
      rw [hset]
      simp
  have hfin := aux g.length le_rfl
  rw [normalizeLoops, hfin, List.take_length, List.drop_length, List.append_nil]

theorem transformRow_of_len_le {α : Type} (ops : FloatModel α) (M : α) (n : ℕ)
    (row : List α) (h : row.length ≤ n) :
    transformRow ops M n row = row.map (fun v => ops.div v M) := by
  simp [transformRow, List.take_all_of_le h, List.drop_eq_nil_of_le h]

theorem transformRow_div_one (n : ℕ) (row : List ℚ) :
    transformRow ratModel 1 n row = row := by
  have h1 : (row.take n).map (fun v => ratModel.div v 1) = row.take n := by
    have : ∀ v ∈ row.take n, ratModel.div v 1 = v := by
      intro v _
      show v / 1 = v
      exact div_one v
    calc (row.take n).map (fun v => ratModel.div v 1)
        = (row.take n).map (fun v => v) := List.map_eq_map_iff.mpr this
      _ = row.take n := List.map_id' (row.take n)
  rw [transformRow, h1, List.take_append_drop]

theorem ratStep_eq_max (m y : ℚ) : (if ratModel.lt m y then y else m) = max m y := by
  rcases le_or_lt y m with h | h
  · simp [ratModel, not_lt.mpr h, max_eq_left h]
  · simp [ratModel, h, max_eq_right h.le]

theorem ratStepMin_eq_min (m y : ℚ) : (if ratModel.lt y m then y else m) = min m y := by
  rcases le_or_lt m y with h | h
  · simp [ratModel, not_lt.mpr h, min_eq_left h]
  · simp [ratModel, h, min_eq_right h.le]

theorem pyMax_rat_cons (x : ℚ) (xs : List ℚ) :
    pyMax ratModel (x :: xs) = some (xs.foldl max x) := by
  simp only [pyMax]
  congr 1
  exact List.foldl_ext _ _ x (fun a b _ => ratStep_eq_max a b)

theorem pyMin_rat_cons (x : ℚ) (xs : List ℚ) :
    pyMin ratModel (x :: xs) = some (xs.foldl min x) := by
  simp only [pyMin]
  congr 1
  exact List.foldl_ext _ _ x (fun a b _ => ratStepMin_eq_min a b)

theorem foldl_max_bounds (xs : List ℚ) :
    ∀ a : ℚ, a ≤ xs.foldl max a ∧ ∀ x ∈ xs, x ≤ xs.foldl max a := by
  induction xs with
  | nil => intro a; exact ⟨le_rfl, by simp⟩
  | cons y ys ih =>
    intro a
    simp only [List.foldl_cons]
    obtain ⟨h1, h2⟩ := ih (max a y)
    refine ⟨le_trans (le_max_left a y) h1, ?_⟩
    intro x hx
    rcases List.mem_cons.mp hx with rfl | hx
    · exact le_trans (le_max_right a x) h1
    · exact h2 x hx

theorem foldl_max_mem (xs : List ℚ) :
    ∀ a : ℚ, xs.foldl max a = a ∨ xs.foldl max a ∈ xs := by
  induction xs with
  | nil => intro a; exact Or.inl rfl
  | cons y ys ih =>
    intro a
    simp only [List.foldl_cons]
    rcases ih (max a y) with h | h
    · rcases max_choice a y with he | he
      · exact Or.inl (by rw [h, he])
      · refine Or.inr ?_
        rw [h, he]
        exact List.mem_cons_self y ys
    · exact Or.inr (List.mem_cons_of_mem y h)

theorem pyMax_rat_spec (l : List ℚ) (M : ℚ) (h : pyMax ratModel l = some M) :
    M ∈ l ∧ ∀ x ∈ l, x ≤ M := by
  match l with
  | [] => simp [pyMax] at h
  | x :: xs =>
    rw [pyMax_rat_cons] at h
    have hM : xs.foldl max x = M := by
      injection h
    subst hM
    obtain ⟨h1, h2⟩ := foldl_max_bounds xs x
    constructor
    · rcases foldl_max_mem xs x with he | he
      · rw [he]; exact List.mem_cons_self x xs
      · exact List.mem_cons_of_mem x he
    · intro z hz
      rcases List.mem_cons.mp hz with rfl | hz
      · exact h1
      · exact h2 z hz

theorem pyMax_rat_of_bounds (l : List ℚ) (M : ℚ) (hmem : M ∈ l)
    (hub : ∀ x ∈ l, x ≤ M) : pyMax ratModel l = some M := by
  match l with
  | [] => simp at hmem
  | x :: xs =>
    rw [pyMax_rat_cons]
    congr 1
    obtain ⟨h1, h2⟩ := foldl_max_bounds xs x
    apply le_antisymm
    · rcases foldl_max_mem xs x with he | he
      · rw [he]; exact hub x (List.mem_cons_self x xs)
      · exact hub _ (List.mem_cons_of_mem x he)
    · rcases List.mem_cons.mp hmem with rfl | hM
      · exact h1
      · exact h2 M hM

theorem pyMax_rat_isSome (l : List ℚ) (h : l ≠ []) :
    ∃ v, pyMax ratModel l = some v := by
  match l with
  | [] => exact absurd rfl h
  | x :: xs => exact ⟨_, rfl⟩

theorem pyMin_rat_isSome (l : List ℚ) (h : l ≠ []) :
    ∃ v, pyMin ratModel l = some v := by
  match l with
  | [] => exact absurd rfl h
  | x :: xs => exact ⟨_, rfl⟩

theorem optionMap_forall₂ {α β : Type} (f : α → Option β) :
    ∀ (g : List α) (l2 : List β), optionMap f g = some l2 →
      List.Forall₂ (fun a b => f a = some b) g l2 := by
  intro g
  induction g with
  | nil =>
    intro l2 h
    simp only [optionMap, Option.some.injEq] at h
    subst h
    exact List.Forall₂.nil
  | cons a t ih =>
    intro l2 h
    simp only [optionMap] at h
    cases ha : f a with
    | none => rw [ha] at h; simp at h
    | some b =>
      rw [ha] at h
      cases ht : optionMap f t with
      | none => rw [ht] at h; simp at h
      | some bs =>
        rw [ht] at h
        simp only [Option.some.injEq] at h
        subst h
        exact List.Forall₂.cons ha (ih bs ht)

theorem forall₂_exists_left {α β : Type} {R : α → β → Prop} :
    ∀ {l : List α} {u : List β}, List.Forall₂ R l u → ∀ b ∈ u, ∃ a ∈ l, R a b := by
  intro l u h
  induction h with
  | nil => intro b hb; simp at hb
  | cons hab _ ih =>
    intro b hb
    rcases List.mem_cons.mp hb with rfl | hb
    · exact ⟨_, List.mem_cons_self _ _, hab⟩
    · obtain ⟨a2, ha2, hr⟩ := ih b hb
      exact ⟨a2, List.mem_cons_of_mem _ ha2, hr⟩

theorem forall₂_exists_right {α β : Type} {R : α → β → Prop} :
    ∀ {l : List α} {u : List β}, List.Forall₂ R l u → ∀ a ∈ l, ∃ b ∈ u, R a b := by
  intro l u h
  induction h with
  | nil => intro a ha; simp at ha
  | cons hab _ ih =>
    intro a ha
    rcases List.mem_cons.mp ha with rfl | ha
    · exact ⟨_, List.mem_cons_self _ _, hab⟩
    · obtain ⟨b2, hb2, hr⟩ := ih a ha
      exact ⟨b2, List.mem_cons_of_mem _ hb2, hr⟩

theorem determine_inv {α : Type} (ops : FloatModel α) (g : Grid α) (M m : α)
    (h : determine_max_and_min ops g = some (M, m)) :
    ∃ maxes mins, optionMap (pyMax ops) g = some maxes ∧ pyMax ops maxes = some M ∧
      optionMap (pyMin ops) g = some mins ∧ pyMin ops mins = some m := by
  unfold determine_max_and_min at h
  split at h
  · exact Option.noConfusion h
  next maxes h1 =>
    split at h
    · exact Option.noConfusion h
    next Mv h2 =>
      split at h
      · exact Option.noConfusion h
      next mins h3 =>
        split at h
        · exact Option.noConfusion h
        next mv h4 =>
          simp only [Option.some.injEq, Prod.mk.injEq] at h
          obtain ⟨hM, hm⟩ := h
          subst hM
          subst hm
          exact ⟨maxes, mins, h1, h2, h3, h4⟩

theorem determine_construct {α : Type} (ops : FloatModel α) (g : Grid α)
    (maxes mins : List α) (M m : α)
    (h1 : optionMap (pyMax ops) g = some maxes) (h2 : pyMax ops maxes = some M)
    (h3 : optionMap (pyMin ops) g = some mins) (h4 : pyMin ops mins = some m) :
    determine_max_and_min ops g = some (M, m) := by
  simp only [determine_max_and_min, h1, h2, h3, h4]

theorem detmax_rat_spec (g : Grid ℚ) (M m : ℚ)
    (h : determine_max_and_min ratModel g = some (M, m)) :
    (∃ row ∈ g, M ∈ row) ∧ ∀ row ∈ g, ∀ x ∈ row, x ≤ M := by
  obtain ⟨maxes, mins, h1, h2, _h3, _h4⟩ := determine_inv ratModel g M m h
  have hf2 := optionMap_forall₂ _ g maxes h1
  have hspecM := pyMax_rat_spec maxes M h2
  constructor
  · obtain ⟨row, hrow, hr⟩ := forall₂_exists_left hf2 M hspecM.1
    exact ⟨row, hrow, (pyMax_rat_spec row M hr).1⟩
  · intro row hrow x hx
    obtain ⟨b, hbmem, hb⟩ := forall₂_exists_right hf2 row hrow
    exact ((pyMax_rat_spec row b hb).2 x hx).trans (hspecM.2 b hbmem)

theorem normalize_array_eq_ok {α : Type} (ops : FloatModel α) (g : Grid α) (M m : α)
    (hdet : determine_max_and_min ops g = some (M, m)) (hz : ops.isZero M = false)
    (g2 : Grid α) (hloop : normalizeLoops ops M g = some g2) :
    normalize_array ops g = Except.ok g2 := by
  unfold normalize_array
  rw [hdet]
  simp [hz, hloop]

/-- C9: normalization is idempotent at a fixed point: for every grid (rows at
least as long as the row count, as the script's square density grids are)
whose maximum cell value is already 1, `normalize_array` divides every cell
by 1 and returns the grid with every cell value unchanged. -/
theorem spec_C9 (g : Grid ℚ) (m : ℚ)
    (hwide : ∀ row ∈ g, g.length ≤ row.length)
    (hdet : determine_max_and_min ratModel g = some (1, m)) :
    normalize_array ratModel g = Except.ok g := by
  have hloop := normalizeLoops_eq ratModel 1 g hwide
  have hg : g.map (transformRow ratModel 1 g.length) = g := by
    have h1 : g.map (transformRow ratModel 1 g.length) = g.map (fun row => row) :=
      List.map_eq_map_iff.mpr (fun a _ => transformRow_div_one g.length a)
    rw [h1, List.map_id']
  rw [hg] at hloop
  have hz : ratModel.isZero (1 : ℚ) = false := by
    norm_num [ratModel]
  exact normalize_array_eq_ok ratModel g 1 m hdet hz g hloop

/-- Witness for C9 at a concrete grid with maximum 1. -/
theorem spec_C9_witness :
    normalize_array ratModel [[1, 0], [0, 1]] = Except.ok [[1, 0], [0, 1]] :=
  spec_C9 [[1, 0], [0, 1]] 0 (by decide) (by decide)

/-- C10: `normalize_array` iterates both indices over the row count, so on a
grid with more columns than rows it rescales exactly the leading N by N block
(N the row count): every cell in a column with index at least N keeps its
original value, cells inside the block are divided by the maximum, and that
maximum is taken over all cells of the grid (it is attained in the grid and
bounds every cell, also beyond column N). -/
theorem spec_C10 (g : Grid ℚ) (M m : ℚ)
    (hwideS : ∀ row ∈ g, g.length < row.length)
    (hdet : determine_max_and_min ratModel g = some (M, m))
    (hM0 : M ≠ 0) :
    ∃ g2, normalize_array ratModel g = Except.ok g2
      ∧ g2.length = g.length
      ∧ (∀ i j : ℕ, i < g.length → j < g.length →
          (g2.getD i []).getD j 0 = (g.getD i []).getD j 0 / M)
      ∧ (∀ i j : ℕ, i < g.length → g.length ≤ j →
          (g2.getD i []).getD j 0 = (g.getD i []).getD j 0)
      ∧ (∃ row ∈ g, M ∈ row) ∧ (∀ row ∈ g, ∀ x ∈ row, x ≤ M) := by
  have hwide : ∀ row ∈ g, g.length ≤ row.length := fun r h => (hwideS r h).le
  have hloop := normalizeLoops_eq ratModel M g hwide
  have hz : ratModel.isZero M = false := by
    simp [ratModel, hM0]
  refine ⟨g.map (transformRow ratModel M g.length),
    normalize_array_eq_ok ratModel g M m hdet hz _ hloop, by simp, ?_, ?_,
    (detmax_rat_spec g M m hdet).1, (detmax_rat_spec g M m hdet).2⟩
  · intro i j hi hj
    have hrl : g.length ≤ g[i].length := hwide _ (List.getElem_mem hi)
    have hjrow : j < g[i].length := lt_of_lt_of_le hj hrl
    have hAlen : ((g[i].take g.length).map (fun v => ratModel.div v M)).length
        = g.length := by
      simp only [List.length_map, List.length_take]
      omega
    have hg2i : (g.map (transformRow ratModel M g.length))[i]?
        = some (transformRow ratModel M g.length g[i]) := by
      rw [List.getElem?_map, List.getElem?_eq_getElem hi]
      rfl
    have hTj : (transformRow ratModel M g.length g[i])[j]? = some (g[i][j] / M) := by
      rw [transformRow, List.getElem?_append_left (by rw [hAlen]; exact hj)]
      rw [List.getElem?_map, List.getElem?_take_of_lt hj, List.getElem?_eq_getElem hjrow]
      rfl
    have hgI : g[i]? = some g[i] := List.getElem?_eq_getElem hi
    have hgIJ : g[i][j]? = some g[i][j] := List.getElem?_eq_getElem hjrow
    simp only [List.getD_eq_getElem?_getD, hg2i, hgI, Option.getD_some, hTj, hgIJ]
  · intro i j hi hj
    have hAlen : ((g[i].take g.length).map (fun v => ratModel.div v M)).length
        = g.length := by
      have hrl : g.length ≤ g[i].length := hwide _ (List.getElem_mem hi)
      simp only [List.length_map, List.length_take]
      omega
    have hg2i : (g.map (transformRow ratModel M g.length))[i]?
        = some (transformRow ratModel M g.length g[i]) := by
      rw [List.getElem?_map, List.getElem?_eq_getElem hi]
      rfl
    have hTj : (transformRow ratModel M g.length g[i])[j]? = g[i][j]? := by
      rw [transformRow, List.getElem?_append_right (by rw [hAlen]; exact hj)]
      rw [hAlen, List.getElem?_drop]
      have hidx : g.length + (j - g.length) = j := by omega
      rw [hidx]
    have hgI : g[i]? = some g[i] := List.getElem?_eq_getElem hi
    simp only [List.getD_eq_getElem?_getD, hg2i, hgI, Option.getD_some, hTj]

/-- Witness for C10 at the concrete 1 by 2 grid [[1, 5]]: the maximum 5 is
found in the out-of-block column, the single block cell becomes 1/5, and the
cell in column 1 keeps the value 5. -/
theorem spec_C10_witness :
    ∃ g2, normalize_array ratModel [[1, 5]] = Except.ok g2
      ∧ g2.length = ([[1, 5]] : Grid ℚ).length
      ∧ (∀ i j : ℕ, i < ([[1, 5]] : Grid ℚ).length → j < ([[1, 5]] : Grid ℚ).length →
          (g2.getD i []).getD j 0 = (([[1, 5]] : Grid ℚ).getD i []).getD j 0 / 5)
      ∧ (∀ i j : ℕ, i < ([[1, 5]] : Grid ℚ).length → ([[1, 5]] : Grid ℚ).length ≤ j →
          (g2.getD i []).getD j 0 = (([[1, 5]] : Grid ℚ).getD i []).getD j 0)
      ∧ (∃ row ∈ ([[1, 5]] : Grid ℚ), (5 : ℚ) ∈ row)
      ∧ (∀ row ∈ ([[1, 5]] : Grid ℚ), ∀ x ∈ row, x ≤ (5 : ℚ)) :=
  spec_C10 [[1, 5]] 5 1 (by decide) (by decide) (by decide)

/-- C1: for every (square, as the script's density grids are) grid whose
maximum cell value is strictly positive, `normalize_array` returns a grid of
the same shape in which every cell equals the corresponding input cell
divided by the input's maximum, and the maximum cell value of the result is
exactly 1. -/
theorem spec_C1 (g : Grid ℚ) (M m : ℚ)
    (hsq : ∀ row ∈ g, row.length = g.length)
    (hdet : determine_max_and_min ratModel g = some (M, m))
    (hpos : 0 < M) :
    ∃ g2, normalize_array ratModel g = Except.ok g2
      ∧ g2.length = g.length
      ∧ (∀ row ∈ g2, row.length = g.length)
      ∧ (∀ i j : ℕ, i < g.length → j < g.length →
          (g2.getD i []).getD j 0 = (g.getD i []).getD j 0 / M)
      ∧ ∃ m2 : ℚ, determine_max_and_min ratModel g2 = some (1, m2) := by
  obtain ⟨maxes, mins, h1, h2, h3, h4⟩ := determine_inv ratModel g M m hdet
  have hf2 := optionMap_forall₂ _ g maxes h1
  have hgne : g ≠ [] := by
    rintro rfl
    cases hf2
    simp [pyMax] at h2
  have hrowsne : ∀ row ∈ g, row ≠ [] := by
    intro row hrow he
    obtain ⟨b, _hb, hpb⟩ := forall₂_exists_right hf2 row hrow
    rw [he] at hpb
    simp [pyMax] at hpb
  have hwide : ∀ row ∈ g, g.length ≤ row.length := fun row h => (hsq row h).ge
  have hloop := normalizeLoops_eq ratModel M g hwide
  have hg2eq : g.map (transformRow ratModel M g.length)
      = g.map (fun row => row.map (fun v => v / M)) :=
    List.map_eq_map_iff.mpr (fun row hrow => by
      rw [transformRow_of_len_le ratModel M g.length row (hsq row hrow).le]
      rfl)
  rw [hg2eq] at hloop
  have hz : ratModel.isZero M = false := by
    simp [ratModel, hpos.ne']
  refine ⟨g.map (fun row => row.map (fun v => v / M)),
    normalize_array_eq_ok ratModel g M m hdet hz _ hloop, by simp, ?_, ?_, ?_⟩
  · intro row2 hrow2
    obtain ⟨row, hrow, rfl⟩ := List.mem_map.mp hrow2
    simp [hsq row hrow]
  · intro i j hi hj
    have hjrow : j < g[i].length := by
      rw [hsq g[i] (List.getElem_mem hi)]
      exact hj
    have hg2i : (g.map (fun row => row.map (fun v => v / M)))[i]?
        = some (g[i].map (fun v => v / M)) := by
      rw [List.getElem?_map, List.getElem?_eq_getElem hi]
      rfl
    have hg2ij : (g[i].map (fun v => v / M))[j]? = some (g[i][j] / M) := by
      rw [List.getElem?_map, List.getElem?_eq_getElem hjrow]
      rfl
    have hgI : g[i]? = some g[i] := List.getElem?_eq_getElem hi
    have hgIJ : g[i][j]? = some g[i][j] := List.getElem?_eq_getElem hjrow
    simp only [List.getD_eq_getElem?_getD, hg2i, hgI, Option.getD_some, hg2ij, hgIJ]
  · have hub := (detmax_rat_spec g M m hdet).2
    obtain ⟨row0, hrow0, hMrow0⟩ := (detmax_rat_spec g M m hdet).1
    have hrows2ne : ∀ row2 ∈ g.map (fun row => row.map (fun v => v / M)), row2 ≠ [] := by
      intro row2 hrow2
      obtain ⟨row, hrow, rfl⟩ := List.mem_map.mp hrow2
      intro he
      exact hrowsne row hrow (List.map_eq_nil.mp he)
    have hmaxes2 : optionMap (pyMax ratModel) (g.map (fun row => row.map (fun v => v / M)))
        = some ((g.map (fun row => row.map (fun v => v / M))).map
            (fun row => (pyMax ratModel row).getD 0)) := by
      apply optionMap_of_forall
      intro row2 hrow2
      obtain ⟨v, hv⟩ := pyMax_rat_isSome row2 (hrows2ne row2 hrow2)
      rw [hv]
      rfl
    have hmins2 : optionMap (pyMin ratModel) (g.map (fun row => row.map (fun v => v / M)))
        = some ((g.map (fun row => row.map (fun v => v / M))).map
            (fun row => (pyMin ratModel row).getD 0)) := by
      apply optionMap_of_forall
      intro row2 hrow2
      obtain ⟨v, hv⟩ := pyMin_rat_isSome row2 (hrows2ne row2 hrow2)
      rw [hv]
      rfl
    have hub2 : ∀ y ∈ (g.map (fun row => row.map (fun v => v / M))).map
        (fun row => (pyMax ratModel row).getD 0), y ≤ 1 := by
      intro y hy
      obtain ⟨row2, hrow2, rfl⟩ := List.mem_map.mp hy
      obtain ⟨row, hrow, rfl⟩ := List.mem_map.mp hrow2
      obtain ⟨v, hv⟩ := pyMax_rat_isSome _ (hrows2ne _ (List.mem_map_of_mem _ hrow))
      rw [hv, Option.getD_some]
      obtain ⟨hvmem, _⟩ := pyMax_rat_spec _ v hv
      obtain ⟨z, hz2, rfl⟩ := List.mem_map.mp hvmem
      exact (div_le_one hpos).mpr (hub row hrow z hz2)
    have hmem1 : (1 : ℚ) ∈ (g.map (fun row => row.map (fun v => v / M))).map
        (fun row => (pyMax ratModel row).getD 0) := by
      have hrow0mem : row0.map (fun v => v / M) ∈ g.map (fun row => row.map (fun v => v / M)) :=
        List.mem_map_of_mem _ hrow0
      obtain ⟨v, hv⟩ := pyMax_rat_isSome _ (hrows2ne _ hrow0mem)
      have h1v : (1 : ℚ) ≤ v := by
        have hMm : M / M ∈ row0.map (fun v => v / M) := List.mem_map_of_mem _ hMrow0
        rw [div_self hpos.ne'] at hMm
        exact (pyMax_rat_spec _ v hv).2 1 hMm
      have hv1 : v ≤ 1 := by
        apply hub2
        have hmem := List.mem_map_of_mem (fun row => (pyMax ratModel row).getD 0) hrow0mem
        simpa [hv] using hmem
      have hveq : v = 1 := le_antisymm hv1 h1v
      have hmem := List.mem_map_of_mem (fun row => (pyMax ratModel row).getD 0) hrow0mem
      simp only [hv, Option.getD_some] at hmem
      rw [← hveq]
      exact hmem
    have hmax2 : pyMax ratModel ((g.map (fun row => row.map (fun v => v / M))).map
        (fun row => (pyMax ratModel row).getD 0)) = some 1 :=
      pyMax_rat_of_bounds _ 1 hmem1 hub2
    have hminsne : (g.map (fun row => row.map (fun v => v / M))).map
        (fun row => (pyMin ratModel row).getD 0) ≠ [] := by
      intro he
      exact hgne (List.map_eq_nil.mp (List.map_eq_nil.mp he))
    obtain ⟨m2, hm2⟩ := pyMin_rat_isSome _ hminsne
    exact ⟨m2, determine_construct ratModel _ _ _ 1 m2 hmaxes2 hmax2 hmins2 hm2⟩

/-- Witness for C1 at the concrete grid [[1, 2], [4, 2]] with maximum 4. -/
theorem spec_C1_witness :
    ∃ g2, normalize_array ratModel [[1, 2], [4, 2]] = Except.ok g2
      ∧ g2.length = ([[1, 2], [4, 2]] : Grid ℚ).length
      ∧ (∀ row ∈ g2, row.length = ([[1, 2], [4, 2]] : Grid ℚ).length)
      ∧ (∀ i j : ℕ, i < ([[1, 2], [4, 2]] : Grid ℚ).length →
          j < ([[1, 2], [4, 2]] : Grid ℚ).length →
          (g2.getD i []).getD j 0 = (([[1, 2], [4, 2]] : Grid ℚ).getD i []).getD j 0 / 4)
      ∧ ∃ m2 : ℚ, determine_max_and_min ratModel g2 = some (1, m2) :=
  spec_C1 [[1, 2], [4, 2]] 4 1 (by decide) (by decide) (by decide)

theorem binEdges_getD_zero (a b : ℚ) (n : ℕ) : (binEdges a b n).getD 0 0 = a := by
  simp [binEdges, List.range_succ_eq_map]

theorem binEdges_getLast (a b : ℚ) (n : ℕ) (hn : 0 < n) :
    (binEdges a b n).getLast? = some b := by
  rw [binEdges, List.range_succ, List.map_append]
  simp only [List.map_cons, List.map_nil]
  rw [List.getLast?_concat]
  congr 1
  have hne : (n : ℚ) ≠ 0 := Nat.cast_ne_zero.mpr hn.ne'
  field_simp

theorem binIdx_of_lt (a b : ℚ) (n : ℕ) (x : ℚ) (hab : a ≤ b) (hx : x < a) :
    binIdx (binEdges a b n) x = 0 := by
  have hcount : (binEdges a b n).countP (fun e => decide (e ≤ x)) = 0 := by
    apply List.countP_eq_zero.mpr
    intro e he
    simp only [binEdges, List.mem_map, List.mem_range] at he
    obtain ⟨k, _hk, rfl⟩ := he
    simp only [decide_eq_true_eq, not_le]
    have hnn : 0 ≤ (k : ℚ) * ((b - a) / (n : ℚ)) :=
      mul_nonneg (Nat.cast_nonneg k)
        (div_nonneg (sub_nonneg.mpr hab) (Nat.cast_nonneg n))
    linarith
  simp only [binIdx, searchsortedRight, hcount]
  split <;> rfl

theorem binIdx_of_gt (a b : ℚ) (n : ℕ) (x : ℚ) (hab : a ≤ b) (hx : b < x)
    (hn : 0 < n) : binIdx (binEdges a b n) x = n + 1 := by
  have hne : (n : ℚ) ≠ 0 := Nat.cast_ne_zero.mpr hn.ne'
  have hcount : (binEdges a b n).countP (fun e => decide (e ≤ x))
      = (binEdges a b n).length := by
    apply List.countP_eq_length.mpr
    intro e he
    simp only [binEdges, List.mem_map, List.mem_range] at he
    obtain ⟨k, hk, rfl⟩ := he
    simp only [decide_eq_true_eq]
    have hkn : (k : ℚ) ≤ (n : ℚ) := Nat.cast_le.mpr (Nat.lt_succ_iff.mp hk)
    have hstep : (k : ℚ) * ((b - a) / (n : ℚ)) ≤ (n : ℚ) * ((b - a) / (n : ℚ)) :=
      mul_le_mul_of_nonneg_right hkn
        (div_nonneg (sub_nonneg.mpr hab) (Nat.cast_nonneg n))
    have hfull : (n : ℚ) * ((b - a) / (n : ℚ)) = b - a := by
      field_simp
    linarith
  have hlen : (binEdges a b n).length = n + 1 := by
    simp [binEdges]
  have hbx : ¬((binEdges a b n).getLast? = some x) := by
    rw [binEdges_getLast a b n hn]
    simp only [Option.some.injEq]
    exact (ne_of_lt hx)
  simp only [binIdx, searchsortedRight, hcount, hlen, if_neg hbx]

/-- C5: `np.histogram2d` with the explicit range produces a bins-by-bins
grid of equal-width bins in which a sample outside the range contributes to
no cell (appending such a sample leaves the whole result unchanged), and the
extent `[xedges[0], xedges[-1], yedges[0], yedges[-1]]` computed by
`get_histogram` equals `[xmin, xmax, ymin, ymax]`. -/
theorem spec_C5 (pts : List (ℚ × ℚ)) (p0 : ℚ × ℚ) (bins : ℕ)
    (xmin xmax ymin ymax : ℚ)
    (hb : 0 < bins) (hx : xmin < xmax) (hy : ymin < ymax)
    (hout : p0.1 < xmin ∨ xmax < p0.1 ∨ p0.2 < ymin ∨ ymax < p0.2) :
    (histogram2d pts bins xmin xmax ymin ymax).heatmap.length = bins
    ∧ (∀ row ∈ (histogram2d pts bins xmin xmax ymin ymax).heatmap, row.length = bins)
    ∧ histogram2d (pts ++ [p0]) bins xmin xmax ymin ymax
        = histogram2d pts bins xmin xmax ymin ymax
    ∧ extentOf (histogram2d pts bins xmin xmax ymin ymax) = [xmin, xmax, ymin, ymax] := by
  refine ⟨by simp [histogram2d, densityGrid], ?_, ?_, ?_⟩
  · intro row hrow
    simp only [histogram2d, densityGrid, List.mem_map, List.mem_range] at hrow
    obtain ⟨i, _hi, rfl⟩ := hrow
    simp
  · have hcounts : histcounts (pts ++ [p0]) bins (binEdges xmin xmax bins)
        (binEdges ymin ymax bins)
        = histcounts pts bins (binEdges xmin xmax bins) (binEdges ymin ymax bins) := by
      unfold histcounts
      apply List.map_eq_map_iff.mpr
      intro i hi
      apply List.map_eq_map_iff.mpr
      intro j hj
      rw [List.countP_append, List.countP_cons, List.countP_nil]
      have hpred : (decide (binIdx (binEdges xmin xmax bins) p0.1 = i + 1
          ∧ binIdx (binEdges ymin ymax bins) p0.2 = j + 1)) = false := by
        simp only [List.mem_range] at hi hj
        simp only [decide_eq_false_iff_not, not_and]
        rcases hout with h | h | h | h
        · intro hcon
          rw [binIdx_of_lt xmin xmax bins p0.1 hx.le h] at hcon
          omega
        · intro hcon
          rw [binIdx_of_gt xmin xmax bins p0.1 hx.le h hb] at hcon
          omega
        · intro _ hcon
          rw [binIdx_of_lt ymin ymax bins p0.2 hy.le h] at hcon
          omega
        · intro _ hcon
          rw [binIdx_of_gt ymin ymax bins p0.2 hy.le h hb] at hcon
          omega
      rw [hpred]
      simp
    simp only [histogram2d, hcounts]
  · simp only [histogram2d, extentOf]
    rw [List.getLastD_eq_getLast?, List.getLastD_eq_getLast?,
      binEdges_getLast xmin xmax bins hb, binEdges_getLast ymin ymax bins hb]
    rw [binEdges_getD_zero, binEdges_getD_zero]
    rfl

/-- Witness for C5 at a concrete two-bin histogram with one in-range sample
and one out-of-range sample. -/
theorem spec_C5_witness :
    (histogram2d [(1, 1)] 2 0 2 0 2).heatmap.length = 2
    ∧ (∀ row ∈ (histogram2d [(1, 1)] 2 0 2 0 2).heatmap, row.length = 2)
    ∧ histogram2d ([(1, 1)] ++ [(5, 1)]) 2 0 2 0 2 = histogram2d [(1, 1)] 2 0 2 0 2
    ∧ extentOf (histogram2d [(1, 1)] 2 0 2 0 2) = [0, 2, 0, 2] :=
  spec_C5 [(1, 1)] (5, 1) 2 0 2 0 2 (by decide) (by decide) (by decide)
    (Or.inr (Or.inl (by decide)))

theorem fmul_nan_right (a : Fl) : fmul a Fl.nan = Fl.nan := by
  cases a <;> rfl

theorem fdiv_nan_right (a : Fl) : fdiv a Fl.nan = Fl.nan := by
  cases a <;> rfl

theorem fadd_nan_left (a : Fl) : fadd Fl.nan a = Fl.nan := by
  cases a <;> rfl

theorem foldl_fadd_nan (l : List Fl) : l.foldl fadd Fl.nan = Fl.nan := by
  induction l with
  | nil => rfl
  | cons a t ih =>
    simp only [List.foldl_cons, fadd_nan_left]
    exact ih

theorem foldl_fadd_allnan (l : List Fl) (hne : l ≠ [])
    (h : ∀ t ∈ l, t = Fl.nan) : l.foldl fadd (Fl.val 0) = Fl.nan := by
  match l with
  | [] => exact absurd rfl hne
  | t :: ts =>
    have ht : t = Fl.nan := h t (List.mem_cons_self t ts)
    simp only [List.foldl_cons, ht]
    exact foldl_fadd_nan ts

theorem reflectIndex_lt (n : ℕ) (hn : 0 < n) (z : ℤ) : reflectIndex n z < n := by
  have h2n : (0 : ℤ) < 2 * (n : ℤ) := by positivity
  have h1 := Int.emod_nonneg z (ne_of_gt h2n)
  have h2 := Int.emod_lt_of_pos z h2n
  simp only [reflectIndex]
  split <;> omega

theorem dotAt_allnan (w xs : List Fl) (i : ℕ) (hw : w ≠ []) (hxs : xs ≠ [])
    (hnan : ∀ x ∈ xs, x = Fl.nan) : dotAt w xs i = Fl.nan := by
  unfold dotAt
  apply foldl_fadd_allnan
  · intro he
    have h1 := List.map_eq_nil.mp he
    rw [List.range_eq_nil] at h1
    exact hw (List.length_eq_zero.mp h1)
  · intro t ht
    obtain ⟨k, _hk, rfl⟩ := List.mem_map.mp ht
    have hxslen : 0 < xs.length := List.length_pos.mpr hxs
    have hidx := reflectIndex_lt xs.length hxslen
      ((i : ℤ) + (k : ℤ) - ((w.length / 2 : ℕ) : ℤ))
    have hcell : xs.getD (reflectIndex xs.length
        ((i : ℤ) + (k : ℤ) - ((w.length / 2 : ℕ) : ℤ))) (Fl.val 0) = Fl.nan := by
      rw [List.getD_eq_getElem?_getD, List.getElem?_eq_getElem hidx, Option.getD_some]
      exact hnan _ (List.getElem_mem hidx)
    rw [hcell]
    exact fmul_nan_right _

theorem colDotAt_allnan (w : List Fl) (g : Grid Fl) (i j m : ℕ) (hw : w ≠ [])
    (hg : g ≠ []) (hrect : ∀ row ∈ g, row.length = m) (hj : j < m)
    (hnan : ∀ row ∈ g, ∀ x ∈ row, x = Fl.nan) : colDotAt w g i j = Fl.nan := by
  unfold colDotAt
  apply foldl_fadd_allnan
  · intro he
    have h1 := List.map_eq_nil.mp he
    rw [List.range_eq_nil] at h1
    exact hw (List.length_eq_zero.mp h1)
  · intro t ht
    obtain ⟨k, _hk, rfl⟩ := List.mem_map.mp ht
    have hglen : 0 < g.length := List.length_pos.mpr hg
    have hidx := reflectIndex_lt g.length hglen
      ((i : ℤ) + (k : ℤ) - ((w.length / 2 : ℕ) : ℤ))
    have hrowget : g.getD (reflectIndex g.length
        ((i : ℤ) + (k : ℤ) - ((w.length / 2 : ℕ) : ℤ))) []
        = g[reflectIndex g.length ((i : ℤ) + (k : ℤ) - ((w.length / 2 : ℕ) : ℤ))] := by
      rw [List.getD_eq_getElem?_getD, List.getElem?_eq_getElem hidx, Option.getD_some]
    have hrowmem := List.getElem_mem hidx
    have hjr : j < (g[reflectIndex g.length
        ((i : ℤ) + (k : ℤ) - ((w.length / 2 : ℕ) : ℤ))]).length := by
      rw [hrect _ hrowmem]
      exact hj
    rw [hrowget]
    have hcell : (g[reflectIndex g.length
        ((i : ℤ) + (k : ℤ) - ((w.length / 2 : ℕ) : ℤ))]).getD j (Fl.val 0)
        = Fl.nan := by
      rw [List.getD_eq_getElem?_getD, List.getElem?_eq_getElem hjr, Option.getD_some]
      exact hnan _ hrowmem _ (List.getElem_mem hjr)
    rw [hcell]
    exact fmul_nan_right _

theorem correlate1d_allnan (w xs : List Fl) (hw : w ≠ []) (hxs : xs ≠ [])
    (hnan : ∀ x ∈ xs, x = Fl.nan) :
    (correlate1d w xs).length = xs.length ∧ ∀ y ∈ correlate1d w xs, y = Fl.nan := by
  constructor
  · simp [correlate1d]
  · intro y hy
    obtain ⟨i, _hi, rfl⟩ := List.mem_map.mp hy
    exact dotAt_allnan w xs i hw hxs hnan

theorem correlateCols_allnan (w : List Fl) (g : Grid Fl) (m : ℕ) (hw : w ≠ [])
    (hg : g ≠ []) (hrect : ∀ row ∈ g, row.length = m)
    (hnan : ∀ row ∈ g, ∀ x ∈ row, x = Fl.nan) :
    (correlateCols w g).length = g.length
    ∧ (∀ row ∈ correlateCols w g, row.length = m)
    ∧ ∀ row ∈ correlateCols w g, ∀ x ∈ row, x = Fl.nan := by
  have hrowD : ∀ i, i < g.length → (g.getD i []).length = m := by
    intro i hi
    rw [List.getD_eq_getElem?_getD, List.getElem?_eq_getElem hi, Option.getD_some]
    exact hrect _ (List.getElem_mem hi)
  refine ⟨by simp [correlateCols], ?_, ?_⟩
  · intro row hrow
    simp only [correlateCols, List.mem_map, List.mem_range] at hrow
    obtain ⟨i, hi, rfl⟩ := hrow
    simp only [List.length_map, List.length_range]
    exact hrowD i hi
  · intro row hrow x hx
    simp only [correlateCols, List.mem_map, List.mem_range] at hrow
    obtain ⟨i, hi, rfl⟩ := hrow
    simp only [List.mem_map, List.mem_range] at hx
    obtain ⟨j, hj, rfl⟩ := hx
    rw [hrowD i hi] at hj
    exact colDotAt_allnan w g i j m hw hg hrect hj hnan

theorem smooth2d_allnan (w : List Fl) (g : Grid Fl) (m : ℕ) (hw : w ≠ [])
    (hg : g ≠ []) (hm : 0 < m) (hrect : ∀ row ∈ g, row.length = m)
    (hnan : ∀ row ∈ g, ∀ x ∈ row, x = Fl.nan) :
    (smooth2d w g).length = g.length
    ∧ (∀ row ∈ smooth2d w g, row.length = m)
    ∧ ∀ row ∈ smooth2d w g, ∀ x ∈ row, x = Fl.nan := by
  obtain ⟨hl, hr, hn⟩ := correlateCols_allnan w g m hw hg hrect hnan
  have hrowne : ∀ row ∈ correlateCols w g, row ≠ [] := by
    intro row hrow
    apply List.ne_nil_of_length_pos
    rw [hr row hrow]
    exact hm
  refine ⟨by simp [smooth2d, hl], ?_, ?_⟩
  · intro row hrow
    simp only [smooth2d, List.mem_map] at hrow
    obtain ⟨row0, hrow0, rfl⟩ := hrow
    have := (correlate1d_allnan w row0 hw (hrowne row0 hrow0) (hn row0 hrow0)).1
    rw [this]
    exact hr row0 hrow0
  · intro row hrow x hx
    simp only [smooth2d, List.mem_map] at hrow
    obtain ⟨row0, hrow0, rfl⟩ := hrow
    exact (correlate1d_allnan w row0 hw (hrowne row0 hrow0) (hn row0 hrow0)).2 x hx

theorem transposeGrid_allnan (g : Grid Fl) (m : ℕ) (hg : g ≠ [])
    (hrect : ∀ row ∈ g, row.length = m)
    (hnan : ∀ row ∈ g, ∀ x ∈ row, x = Fl.nan) :
    (transposeGrid g).length = m
    ∧ (∀ row ∈ transposeGrid g, row.length = g.length)
    ∧ ∀ row ∈ transposeGrid g, ∀ x ∈ row, x = Fl.nan := by
  have hglen : 0 < g.length := List.length_pos.mpr hg
  have hrowD : ∀ i, i < g.length → (g.getD i []).length = m := by
    intro i hi
    rw [List.getD_eq_getElem?_getD, List.getElem?_eq_getElem hi, Option.getD_some]
    exact hrect _ (List.getElem_mem hi)
  refine ⟨?_, ?_, ?_⟩
  · simp only [transposeGrid, List.length_map, List.length_range]
    exact hrowD 0 hglen
  · intro row hrow
    simp only [transposeGrid, List.mem_map, List.mem_range] at hrow
    obtain ⟨j, _hj, rfl⟩ := hrow
    simp
  · intro row hrow x hx
    simp only [transposeGrid, List.mem_map, List.mem_range] at hrow
    obtain ⟨j, hj, rfl⟩ := hrow
    simp only [List.mem_map, List.mem_range] at hx
    obtain ⟨i, hi, rfl⟩ := hx
    rw [hrowD 0 hglen] at hj
    have hgi : g.getD i [] = g[i] := by
      rw [List.getD_eq_getElem?_getD, List.getElem?_eq_getElem hi, Option.getD_some]
    rw [hgi]
    have hjr : j < (g[i]).length := by
      rw [hrect _ (List.getElem_mem hi)]
      exact hj
    rw [List.getD_eq_getElem?_getD, List.getElem?_eq_getElem hjr, Option.getD_some]
    exact hnan _ (List.getElem_mem hi) _ (List.getElem_mem hjr)

theorem pyMax_fl_allnan (l : List Fl) (hne : l ≠ [])
    (h : ∀ x ∈ l, x = Fl.nan) : pyMax flModel l = some Fl.nan := by
  match l with
  | [] => exact absurd rfl hne
  | x :: xs =>
    have hx : x = Fl.nan := h x (List.mem_cons_self x xs)
    have hxs : ∀ y ∈ xs, y = Fl.nan := fun y hy => h y (List.mem_cons_of_mem x hy)
    have hstep : (fun m y : Fl => if flModel.lt m y then y else m) Fl.nan Fl.nan
        = Fl.nan := by
      simp [flModel, flt]
    simp only [pyMax, hx]
    exact congrArg some
      (foldl_const_of_step (fun m y : Fl => if flModel.lt m y then y else m) Fl.nan hstep xs hxs)

theorem pyMin_fl_allnan (l : List Fl) (hne : l ≠ [])
    (h : ∀ x ∈ l, x = Fl.nan) : pyMin flModel l = some Fl.nan := by
  match l with
  | [] => exact absurd rfl hne
  | x :: xs =>
    have hx : x = Fl.nan := h x (List.mem_cons_self x xs)
    have hxs : ∀ y ∈ xs, y = Fl.nan := fun y hy => h y (List.mem_cons_of_mem x hy)
    have hstep : (fun m y : Fl => if flModel.lt y m then y else m) Fl.nan Fl.nan
        = Fl.nan := by
      simp [flModel, flt]
    simp only [pyMin, hx]
    exact congrArg some
      (foldl_const_of_step (fun m y : Fl => if flModel.lt y m then y else m) Fl.nan hstep xs hxs)

theorem determine_fl_allnan (g : Grid Fl) (hne : g ≠ [])
    (hrows : ∀ row ∈ g, row ≠ [])
    (hnan : ∀ row ∈ g, ∀ x ∈ row, x = Fl.nan) :
    determine_max_and_min flModel g = some (Fl.nan, Fl.nan) := by
  have hmaxes : optionMap (pyMax flModel) g = some (g.map (fun _ => Fl.nan)) :=
    optionMap_of_forall _ _ g (fun row hrow =>
      pyMax_fl_allnan row (hrows row hrow) (hnan row hrow))
  have hmins : optionMap (pyMin flModel) g = some (g.map (fun _ => Fl.nan)) :=
    optionMap_of_forall _ _ g (fun row hrow =>
      pyMin_fl_allnan row (hrows row hrow) (hnan row hrow))
  have hmapne : g.map (fun _ => Fl.nan) ≠ [] := by
    simpa using hne
  have hmaxmax : pyMax flModel (g.map (fun _ => Fl.nan)) = some Fl.nan :=
    pyMax_fl_allnan _ hmapne (by simp)
  have hminmin : pyMin flModel (g.map (fun _ => Fl.nan)) = some Fl.nan :=
    pyMin_fl_allnan _ hmapne (by simp)
  exact determine_construct flModel g _ _ _ _ hmaxes hmaxmax hmins hminmin

theorem transformRow_length {α : Type} (ops : FloatModel α) (M : α) (n : ℕ)
    (row : List α) : (transformRow ops M n row).length = row.length := by
  simp only [transformRow, List.length_append, List.length_map, List.length_take,
    List.length_drop]
  omega

theorem transformRow_fl_allnan (n : ℕ) (row : List Fl)
    (h : ∀ x ∈ row, x = Fl.nan) :
    ∀ x ∈ transformRow flModel Fl.nan n row, x = Fl.nan := by
  intro x hx
  rw [transformRow] at hx
  rcases List.mem_append.mp hx with hx | hx
  · obtain ⟨v, _hv, rfl⟩ := List.mem_map.mp hx
    exact fdiv_nan_right v
  · exact h x (List.drop_subset n row hx)

theorem normalize_fl_allnan (g : Grid Fl) (m : ℕ) (hg : g ≠ []) (hm : 0 < m)
    (hsq : g.length = m) (hrect : ∀ row ∈ g, row.length = m)
    (hnan : ∀ row ∈ g, ∀ x ∈ row, x = Fl.nan) :
    ∃ g2, normalize_array flModel g = Except.ok g2
      ∧ g2.length = g.length ∧ (∀ row ∈ g2, row.length = m)
      ∧ ∀ row ∈ g2, ∀ x ∈ row, x = Fl.nan := by
  have hrows : ∀ row ∈ g, row ≠ [] := fun row h =>
    List.ne_nil_of_length_pos (by rw [hrect row h]; exact hm)
  have hdet := determine_fl_allnan g hg hrows hnan
  have hwide : ∀ row ∈ g, g.length ≤ row.length := fun row h => by
    rw [hrect row h, hsq]
  have hloop := normalizeLoops_eq flModel Fl.nan g hwide
  have hz : flModel.isZero Fl.nan = false := rfl
  refine ⟨g.map (transformRow flModel Fl.nan g.length),
    normalize_array_eq_ok flModel g Fl.nan Fl.nan hdet hz _ hloop, by simp, ?_, ?_⟩
  · intro row2 h2
    obtain ⟨row, hrow, rfl⟩ := List.mem_map.mp h2
    rw [transformRow_length]
    exact hrect row hrow
  · intro row2 h2 x hx
    obtain ⟨row, hrow, rfl⟩ := List.mem_map.mp h2
    exact transformRow_fl_allnan g.length row (hnan row hrow) x hx

theorem histcounts_nil (bins : ℕ) (xe ye : List ℚ) :
    histcounts [] bins xe ye
      = (List.range bins).map (fun _ => (List.range bins).map (fun _ => 0)) := by
  simp [histcounts]

theorem getD_map_const {α β : Type} (l : List α) (c : β) (d : β) :
    ∀ i : ℕ, (l.map (fun _ => c)).getD i d = c ∨ (l.map (fun _ => c)).getD i d = d := by
  induction l with
  | nil => intro i; right; rfl
  | cons a t ih =>
    intro i
    cases i with
    | zero => left; rfl
    | succ k => exact ih k

theorem zero_counts_cell (bins i j : ℕ) :
    (((List.range bins).map
        (fun _ => (List.range bins).map (fun _ => (0 : ℕ)))).getD i []).getD j 0 = 0 := by
  rcases getD_map_const (List.range bins) ((List.range bins).map (fun _ => (0 : ℕ))) [] i
    with h | h
  · rw [h]
    rcases getD_map_const (List.range bins) (0 : ℕ) 0 j with h2 | h2 <;> rw [h2]
  · rw [h]
    rfl

theorem totalCount_zero (bins : ℕ) :
    totalCount ((List.range bins).map
      (fun _ => (List.range bins).map (fun _ => 0))) = 0 := by
  have hz : ((List.range bins).map (fun _ : ℕ => (0 : ℕ))).sum = 0 := by
    apply List.sum_eq_zero
    intro x hx
    obtain ⟨k, _hk, rfl⟩ := List.mem_map.mp hx
    rfl
  unfold totalCount
  rw [List.map_map]
  apply List.sum_eq_zero
  intro x hx
  obtain ⟨k, _hk, rfl⟩ := List.mem_map.mp hx
  exact hz

theorem zeroDivChain (d1 d2 : ℚ) :
    fdiv (fdiv (fdiv (Fl.val 0) (Fl.val d1)) (Fl.val d2)) (Fl.val 0) = Fl.nan := by
  by_cases h1 : d1 = 0
  · subst h1
    simp [fdiv]
  · have ha : fdiv (Fl.val 0) (Fl.val d1) = Fl.val 0 := by
      simp [fdiv, h1]
    rw [ha]
    by_cases h2 : d2 = 0
    · subst h2
      simp [fdiv]
    · have hb : fdiv (Fl.val 0) (Fl.val d2) = Fl.val 0 := by
        simp [fdiv, h2]
      rw [hb]
      simp [fdiv]

theorem histogram2d_shape (pts : List (ℚ × ℚ)) (bins : ℕ) (xmin xmax ymin ymax : ℚ) :
    (histogram2d pts bins xmin xmax ymin ymax).heatmap.length = bins
    ∧ ∀ row ∈ (histogram2d pts bins xmin xmax ymin ymax).heatmap, row.length = bins := by
  constructor
  · simp [histogram2d, densityGrid]
  · intro row hrow
    simp only [histogram2d, densityGrid, List.mem_map, List.mem_range] at hrow
    obtain ⟨i, _, rfl⟩ := hrow
    simp

theorem histogram2d_nil_allnan (bins : ℕ) (xmin xmax ymin ymax : ℚ) :
    ∀ row ∈ (histogram2d [] bins xmin xmax ymin ymax).heatmap,
      ∀ x ∈ row, x = Fl.nan := by
  intro row hrow x hx
  simp only [histogram2d, densityGrid, List.mem_map, List.mem_range] at hrow
  obtain ⟨i, _hi, rfl⟩ := hrow
  simp only [List.mem_map, List.mem_range] at hx
  obtain ⟨j, _hj, rfl⟩ := hx
  rw [histcounts_nil bins (binEdges xmin xmax bins) (binEdges ymin ymax bins)]
  rw [zero_counts_cell bins i j, totalCount_zero bins]
  simp only [Nat.cast_zero]
  exact zeroDivChain _ _

theorem get_histogram_empty (w : List Fl) (bins : ℕ) (xmin xmax ymin ymax : ℚ)
    (hw : w ≠ []) (hb : 0 < bins) :
    ∃ r, get_histogram w [] bins xmin xmax ymin ymax = Except.ok r
      ∧ ∀ row ∈ r.heatmap, ∀ x ∈ row, x = Fl.nan := by
  have hshape := histogram2d_shape [] bins xmin xmax ymin ymax
  have hnan0 := histogram2d_nil_allnan bins xmin xmax ymin ymax
  set h0 := histogram2d [] bins xmin xmax ymin ymax with hh0
  have hne : h0.heatmap ≠ [] :=
    List.ne_nil_of_length_pos (by rw [hshape.1]; exact hb)
  obtain ⟨hsl, hsr, hsn⟩ := smooth2d_allnan w h0.heatmap bins hw hne hb hshape.2 hnan0
  have hsmne : smooth2d w h0.heatmap ≠ [] :=
    List.ne_nil_of_length_pos (by rw [hsl, hshape.1]; exact hb)
  have hsq : (smooth2d w h0.heatmap).length = bins := by
    rw [hsl, hshape.1]
  obtain ⟨g2, hok, hg2len, hg2rows, hg2nan⟩ :=
    normalize_fl_allnan (smooth2d w h0.heatmap) bins hsmne hb hsq hsr hsn
  have hg2ne : g2 ≠ [] := by
    apply List.ne_nil_of_length_pos
    rw [hg2len, hsl, hshape.1]
    exact hb
  obtain ⟨_, _, htn⟩ := transposeGrid_allnan g2 bins hg2ne hg2rows hg2nan
  refine ⟨⟨transposeGrid g2, extentOf h0, h0.xedges, h0.yedges⟩, ?_, htn⟩
  unfold get_histogram
  simp only [List.map_nil]
  rw [← hh0]
  rw [gaussian_filter, if_pos (show (1 : ℚ) / 10 ^ 15 < 3 / 2 by norm_num)]
  rw [hok]

/-- C3: the code fact behind the claim's failure.  For a dataset whose every
row has `F` at or above the threshold (here `badRow`, with `F = 1e-6`), the
filtered table is empty, `histogram2d` with `normed=True` divides the zero
counts by the zero total producing an all-NaN grid, NaN compares unequal to
0, so `normalize_array` does not abort; the run reaches the end and writes
both output files, with every heatmap cell NaN.  This holds for every kernel
of scipy's length `2 * kernelRadius 1.5 + 1`. -/
theorem spec_C3 (w : List Fl) (hw : w.length = 2 * kernelRadius (3 / 2) + 1) :
    ∃ r, runScript w [badRow] [badRow] [badRow]
        = Except.ok ([r, r, r], ["contour_overlap.png", "contour_overlap.eps"])
      ∧ ∀ row ∈ r.heatmap, ∀ x ∈ row, x = Fl.nan := by
  have hwne : w ≠ [] := by
    intro he
    rw [he] at hw
    simp only [List.length_nil] at hw
    omega
  have hfilter : filterByF F_upper [badRow] = [] := by
    simp [filterByF, badRow, F_upper]
  obtain ⟨r, hr, hnan⟩ :=
    get_histogram_empty w 200 10 10000 (10 ^ 11) (261 * 10 ^ 10) hwne (by norm_num)
  refine ⟨r, ?_, hnan⟩
  unfold runScript
  rw [hfilter, hr]
  rfl

/-- Witness for C3 at a concrete kernel of the right length (13, the length
of scipy's Gaussian kernel for sigma 1.5). -/
theorem spec_C3_witness :
    (List.replicate 13 Fl.nan).length = 2 * kernelRadius (3 / 2) + 1
    ∧ ∃ r, runScript (List.replicate 13 Fl.nan) [badRow] [badRow] [badRow]
        = Except.ok ([r, r, r], ["contour_overlap.png", "contour_overlap.eps"])
      ∧ ∀ row ∈ r.heatmap, ∀ x ∈ row, x = Fl.nan := by
  have hk : kernelRadius (3 / 2) = 6 := by
    norm_num [kernelRadius]
    rfl
  have hlen : (List.replicate 13 Fl.nan).length = 2 * kernelRadius (3 / 2) + 1 := by
    simp [hk]
  exact ⟨hlen, spec_C3 (List.replicate 13 Fl.nan) hlen⟩
